import Mathlib

/-!
Verification development for the `regret-guided` repository
(file `experiments/mnist/checkpointer.py`).

The module under verification is glue code around two external libraries:
an optimizer/learning-rate-schedule library (`optax`) and a checkpoint
manager (`orbax.checkpoint`).  We give a shallow embedding:

* learning-rate schedules are functions `ℕ → ℝ` (the external library's
  schedule formulas, modelled from the spec's description of each branch);
* optimizers are a small syntax tree recording exactly which library
  combinators `new_train_state` composes;
* parameter pytrees are finite string-keyed trees of tensors
  (shape + rational data);
* the checkpoint manager is modelled from the spec: a list of retained
  records together with save-interval gating, best-`val_loss` retention
  and best-step selection.
-/

/-- A JAX PRNG key, modelled abstractly as a natural number.  The code
only ever consumes keys through the (deterministic) split function,
which the embedding takes as an explicit argument. -/
abbrev RngKey : Type := Nat

/-- A metrics dictionary, e.g. `{"val_loss": 0.5}`; floats are modelled
as rationals. -/
abbrev Metrics : Type := List (String × ℚ)

mutual

/-- A parameter pytree: a tensor leaf (shape and flattened data, floats
modelled as rationals) or a string-keyed dictionary node. -/
inductive PyTree where
  | leaf (shape : List Nat) (data : List ℚ)
  | node (entries : PyEntries)

/-- The (ordered) entries of a dictionary node of a `PyTree`. -/
inductive PyEntries where
  | nil
  | cons (key : String) (t : PyTree) (rest : PyEntries)

end

mutual

/-- Two pytrees are structurally identical when they have the same keys
and the same tensor shapes at every node (tensor data may differ). -/
def sameStructure : PyTree → PyTree → Bool
  | .leaf s₁ _, .leaf s₂ _ => s₁ == s₂
  | .node e₁, .node e₂ => sameStructureEntries e₁ e₂
  | _, _ => false

/-- Entrywise structural identity of dictionary entries. -/
def sameStructureEntries : PyEntries → PyEntries → Bool
  | .nil, .nil => true
  | .cons k₁ t₁ r₁, .cons k₂ t₂ r₂ =>
      k₁ == k₂ && sameStructure t₁ t₂ && sameStructureEntries r₁ r₂
  | .nil, .cons _ _ _ => false
  | .cons _ _ _, .nil => false

end

mutual

theorem sameStructure_refl : ∀ t : PyTree, sameStructure t t = true
  | .leaf s d => by simp [sameStructure]
  | .node e => by simp [sameStructure, sameStructureEntries_refl e]

theorem sameStructureEntries_refl : ∀ e : PyEntries, sameStructureEntries e e = true
  | .nil => rfl
  | .cons k t r => by
      simp [sameStructureEntries, sameStructure_refl t, sameStructureEntries_refl r]

end

/-- The variable collections returned by `model.init`; the code reads the
`"params"` collection out of them (`variables["params"]`). -/
structure Variables where
  params : PyTree

/-- The model collaborator: `init` consumes the two split PRNG keys
(`{"params": params_key, "sample": sample_key}`) and the init batch and
produces the initial variables; `apply` is the forward function stored in
the training state.  `B` is the batch type. -/
structure Model (B : Type) where
  init : RngKey → RngKey → B → Variables
  apply : PyTree → B → PyTree

/-! ### Learning-rate schedules

Modelled from the spec: the schedule constructors are external-library
functions (`optax.linear_schedule`, `optax.cosine_decay_schedule`,
`optax.warmup_cosine_decay_schedule`), not part of `src/`.  The formulas
below follow the spec's glossary: a warmup schedule ramps linearly from 0
to a target over a fixed number of steps; a cosine decay schedule follows
a cosine curve from the initial value down to a floor (`alpha` times the
initial value) over `decay_steps`; the warmup+decay schedule is the
piecewise join of the two at the warmup boundary. -/

/-- Modelled from the spec: the external library's linear schedule.
Ramps from `init_value` at step 0 to `end_value` at `transition_steps`,
constant afterwards. -/
noncomputable def linear_schedule (init_value end_value : ℝ)
    (transition_steps : ℕ) (count : ℕ) : ℝ :=
  let c : ℝ := min (count : ℝ) (transition_steps : ℝ)
  let frac : ℝ := 1 - c / (transition_steps : ℝ)
  (init_value - end_value) * frac + end_value

/-- Modelled from the spec: the external library's cosine decay schedule.
Follows a half cosine from `init_value` at step 0 down to
`init_value * alpha` at `decay_steps`, constant afterwards. -/
noncomputable def cosine_decay_schedule (init_value : ℝ) (decay_steps : ℕ)
    (alpha : ℝ) (count : ℕ) : ℝ :=
  let c : ℝ := min (count : ℝ) (decay_steps : ℝ)
  let cosine_decay : ℝ := (1 + Real.cos (Real.pi * c / (decay_steps : ℝ))) / 2
  let decayed : ℝ := (1 - alpha) * cosine_decay + alpha
  init_value * decayed

/-- Modelled from the spec: the external library's warmup-cosine-decay
schedule: a linear ramp from `init_value` to `peak_value` over
`warmup_steps`, joined at the warmup boundary with a cosine decay from
`peak_value` down to `end_value` reached at step `decay_steps`
(the cosine part runs over the remaining `decay_steps - warmup_steps`
steps with floor ratio `end_value / peak_value`). -/
noncomputable def warmup_cosine_decay_schedule (init_value peak_value : ℝ)
    (warmup_steps decay_steps : ℕ) (end_value : ℝ) (count : ℕ) : ℝ :=
  if count < warmup_steps then
    linear_schedule init_value peak_value warmup_steps count
  else
    cosine_decay_schedule peak_value (decay_steps - warmup_steps)
      (end_value / peak_value) (count - warmup_steps)

/-- The learning rate handed to the optimizer: either the constant scalar
`config.params.learning_rate` or a schedule function of the step count. -/
inductive LearningRate where
  | scalar (r : ℝ)
  | schedule (f : ℕ → ℝ)

/-- The value a learning rate takes at a given step count. -/
noncomputable def sched_at : LearningRate → ℕ → ℝ
  | .scalar r, _ => r
  | .schedule f, n => f n

/-- The optimizer configuration attributes read by `new_train_state`
(`config.params.*`). -/
structure OptimizerParams where
  do_warmup : Bool
  do_decay : Bool
  learning_rate : ℝ
  warmup_steps : ℕ
  decay_steps : ℕ
  end_learning_rate : ℝ
  weight_decay : ℝ
  do_gradient_clipping : Bool
  gradient_clipping : ℝ

/-- The optimizer configuration object (`config.name`, `config.params`). -/
structure OptimizerConfig where
  name : String
  params : OptimizerParams

/-- The learning-rate selection of `new_train_state`: the
`if do_warmup and do_decay / elif do_warmup / elif do_decay / else`
chain of the source. -/
noncomputable def lr_of (p : OptimizerParams) : LearningRate :=
  if p.do_warmup && p.do_decay then
    .schedule (warmup_cosine_decay_schedule 0 p.learning_rate
      p.warmup_steps p.decay_steps p.end_learning_rate)
  else if p.do_warmup then
    .schedule (linear_schedule 0 p.learning_rate p.warmup_steps)
  else if p.do_decay then
    .schedule (cosine_decay_schedule p.learning_rate p.decay_steps
      (p.end_learning_rate / p.learning_rate))
  else
    .scalar p.learning_rate

/-- The gradient transformations `new_train_state` composes, as a syntax
tree over the external library's combinators.  The code only ever calls
`chain` with two members (the clipper and the optimizer), so `chain` is
binary here. -/
inductive GradientTransformation where
  | adam (lr : LearningRate)
  | adamw (lr : LearningRate) (weight_decay : ℝ)
  | clip_by_global_norm (max_norm : ℝ)
  | chain (first second : GradientTransformation)

/-- Whether a gradient transformation contains a global-norm clipper
anywhere in its pipeline. -/
def containsClip : GradientTransformation → Bool
  | .clip_by_global_norm _ => true
  | .chain a b => containsClip a || containsClip b
  | .adam _ => false
  | .adamw _ _ => false

/-- The optimizer selection of `new_train_state` before the optional
clipping wrapper: `adamw` with the configured weight decay when
`config.name == "adamw"`, plain `adam` otherwise. -/
noncomputable def base_tx (config : OptimizerConfig) : GradientTransformation :=
  if config.name = "adamw" then
    .adamw (lr_of config.params) config.params.weight_decay
  else
    .adam (lr_of config.params)

/-- The full optimizer built by `new_train_state`: the base optimizer,
wrapped as `chain(clip_by_global_norm c, tx)` when
`config.params.do_gradient_clipping` is set. -/
noncomputable def tx_of (config : OptimizerConfig) : GradientTransformation :=
  if config.params.do_gradient_clipping then
    .chain (.clip_by_global_norm config.params.gradient_clipping) (base_tx config)
  else
    base_tx config

/-- The training state produced by `EMATrainState.create`: the flax
`TrainState` fields used by this module (step counter, apply function,
live parameters, optimizer) plus the EMA shadow parameters. -/
structure EMATrainState (B : Type) where
  step : ℕ
  apply_fn : PyTree → B → PyTree
  params : PyTree
  ema_params : PyTree
  tx : GradientTransformation

/-- `new_train_state rng_key model init_batch config`: splits the key,
initializes the model variables with the two sub-keys, builds the
learning rate and optimizer from the config, and creates the training
state with `ema_params` a copy of (hence equal to) `params`.  The
external deterministic key-split function is passed explicitly as
`split`. -/
noncomputable def new_train_state {B : Type} (split : RngKey → RngKey × RngKey)
    (rng_key : RngKey) (model : Model B) (init_batch : B)
    (config : OptimizerConfig) : EMATrainState B :=
  let keys := split rng_key
  let vars := model.init keys.1 keys.2 init_batch
  { step := 0
    apply_fn := model.apply
    params := vars.params
    ema_params := vars.params
    tx := tx_of config }

/-! ### The checkpoint manager

Modelled from the spec: the checkpoint manager itself is an external
library (`orbax.checkpoint.CheckpointManager`), not part of `src/`.  Per
the spec it persists the state tree keyed by epoch together with
metrics, skips saves whose epoch does not align with the save interval,
retains only the best `max_to_keep` checkpoints by `metrics["val_loss"]`
(minimized, deleting the least-good first), and `best_step()` resolves
to the retained checkpoint with the smallest `val_loss`.  The spec
leaves missing `val_loss` keys unspecified; the model defaults them
to 0 (no claim exercises that case). -/

/-- A retained checkpoint: the epoch/step it was saved at, the saved
state tree, and the metrics recorded with it. -/
structure CheckpointRecord (S : Type) where
  step : Nat
  ckpt : S
  metrics : Metrics
deriving DecidableEq

/-- The value the manager's best-checkpoint selector reads from a
record: `best_fn=lambda x: x["val_loss"]`. -/
def recLoss {S : Type} (r : CheckpointRecord S) : ℚ :=
  ((r.metrics.lookup ("val_loss")).getD 0)

/-- The state of the checkpoint manager: its retention options and the
currently retained records, in save order. -/
structure CheckpointManagerState (S : Type) where
  max_to_keep : Nat
  save_interval_steps : Nat
  recs : List (CheckpointRecord S)
deriving DecidableEq

/-- The largest `val_loss` among a nonempty list of retained records
(the least-good checkpoint under `best_mode="min"`). -/
def worst_val_loss {S : Type} : List (CheckpointRecord S) → ℚ
  | [] => 0
  | r :: rs => rs.foldl (fun a x => max a (recLoss x)) (recLoss r)

/-- Retention sweep after a save: if the retained records exceed
`max_to_keep`, delete the least-good one (the first record carrying the
worst `val_loss`; ties are unspecified upstream and never exercised by
the claims). -/
def enforce_retention {S : Type} (k : Nat) (recs : List (CheckpointRecord S)) :
    List (CheckpointRecord S) :=
  if recs.length ≤ k then recs
  else recs.eraseP (fun r => decide (recLoss r = worst_val_loss recs))

/-- `checkpoint_manager.save(epoch, ckpt, metrics=metrics)`: skipped when
the epoch does not align with the save interval, otherwise the record is
appended and the retention sweep runs. -/
def manager_save {S : Type} (m : CheckpointManagerState S) (step : Nat)
    (ckpt : S) (metrics : Metrics) : CheckpointManagerState S :=
  if step % m.save_interval_steps = 0 then
    let r : CheckpointRecord S := { step := step, ckpt := ckpt, metrics := metrics }
    { m with recs := enforce_retention m.max_to_keep (m.recs ++ [r]) }
  else m

/-- The retained record with the smallest `val_loss` (earliest wins on
the never-exercised ties), `none` when nothing has been saved. -/
def best_record {S : Type} : List (CheckpointRecord S) → Option (CheckpointRecord S)
  | [] => none
  | r :: rs => some (rs.foldl (fun b x => if recLoss x < recLoss b then x else b) r)

/-- `checkpoint_manager.best_step()`: the step of the best retained
checkpoint, `none` when no checkpoint has ever been saved. -/
def best_step {S : Type} (m : CheckpointManagerState S) : Option Nat :=
  (best_record m.recs).map (fun r => r.step)

/-- `checkpoint_manager.restore(checkpoint_manager.best_step())`: the
state tree of the best retained checkpoint; `none` models the raise when
no checkpoint has ever been saved (`best_step()` is `None`). -/
def manager_restore {S : Type} (m : CheckpointManagerState S) : Option S :=
  (best_record m.recs).map (fun r => r.ckpt)

/-! ### `get_checkpointer_fns` and the filesystem effects -/

/-- The filesystem as the module touches it: the set of directories and
a map from paths to serialized objects (`μ` is the pickled payload
type; `pickle.dump` is modelled as storing the object itself). -/
structure FileSystem (μ : Type) where
  dirs : List String
  files : List (String × μ)

/-- `save_pickle(outfile, obj)`: writes the binary dump of `obj` at
`outfile` (later writes shadow earlier ones). -/
def save_pickle {μ : Type} (fs : FileSystem μ) (outfile : String) (obj : μ) :
    FileSystem μ :=
  { fs with files := (outfile, obj) :: fs.files }

/-- The checkpointing configuration attributes read by
`get_checkpointer_fns` (`config.max_to_keep`,
`config.save_interval_steps`). -/
structure CheckpointerConfig where
  max_to_keep : Nat
  save_interval_steps : Nat

/-- `get_checkpointer_fns(outfolder, config, model_config)` as a state
transformer on the filesystem: builds the manager options
(`max_to_keep`, `save_interval_steps`, `create=True`,
`best_fn = x["val_loss"]`, `best_mode="min"`), creates the output
directory (`create=True`), pickles `model_config` to
`outfolder/config.pkl`, and returns the fresh manager state the three
closures share.  `S` is the checkpointed state-tree type. -/
def get_checkpointer_fns {μ : Type} (S : Type) (outfolder : String)
    (config : CheckpointerConfig) (model_config : μ) (fs : FileSystem μ) :
    FileSystem μ × CheckpointManagerState S :=
  let fs₁ : FileSystem μ := { fs with dirs := outfolder :: fs.dirs }
  let fs₂ := save_pickle fs₁ (outfolder ++ "/config.pkl") model_config
  (fs₂,
   { max_to_keep := config.max_to_keep
     save_interval_steps := config.save_interval_steps
     recs := [] })

/-- The `save_fn(epoch, ckpt, metrics)` closure: a save through the
shared manager (the manager state is the closure's captured state). -/
def save_fn {S : Type} (m : CheckpointManagerState S) (epoch : Nat) (ckpt : S)
    (metrics : Metrics) : CheckpointManagerState S :=
  manager_save m epoch ckpt metrics

/-- The `restore_fn()` closure: restores the checkpoint at
`best_step()`. -/
def restore_fn {S : Type} (m : CheckpointManagerState S) : Option S :=
  manager_restore m

/-- A pending `save_fn` call: the epoch, the state tree and the metrics
dict passed to it. -/
structure SaveReq (S : Type) where
  step : Nat
  ckpt : S
  metrics : Metrics

/-- The `val_loss` a pending save carries. -/
def reqLoss {S : Type} (s : SaveReq S) : ℚ :=
  ((s.metrics.lookup ("val_loss")).getD 0)

/-- The record a persisted save becomes. -/
def toRec {S : Type} (s : SaveReq S) : CheckpointRecord S :=
  { step := s.step, ckpt := s.ckpt, metrics := s.metrics }

/-- Running a sequence of `save_fn` calls against the manager, oldest
first. -/
def run_saves {S : Type} (m : CheckpointManagerState S) (saves : List (SaveReq S)) :
    CheckpointManagerState S :=
  saves.foldl (fun acc s => save_fn acc s.step s.ckpt s.metrics) m

/-! ### Schedule boundary values -/

theorem linear_schedule_zero (i e : ℝ) (T : ℕ) : linear_schedule i e T 0 = i := by
  have h0 : min ((0:ℕ) : ℝ) (T : ℝ) = 0 := by simp
  simp only [linear_schedule, h0, zero_div, sub_zero, mul_one]
  ring

theorem linear_schedule_end (i e : ℝ) (T : ℕ) (hT : T ≠ 0) :
    linear_schedule i e T T = e := by
  have h0 : min ((T:ℕ) : ℝ) (T : ℝ) = (T : ℝ) := by simp
  have hT' : (T : ℝ) ≠ 0 := Nat.cast_ne_zero.mpr hT
  simp only [linear_schedule, h0, div_self hT']
  ring

theorem cosine_decay_schedule_zero (i : ℝ) (d : ℕ) (α : ℝ) :
    cosine_decay_schedule i d α 0 = i := by
  have h0 : min ((0:ℕ) : ℝ) (d : ℝ) = 0 := by simp
  simp only [cosine_decay_schedule, h0, mul_zero, zero_div, Real.cos_zero]
  ring

theorem cosine_decay_schedule_end (i : ℝ) (d : ℕ) (α : ℝ) (hd : d ≠ 0) :
    cosine_decay_schedule i d α d = i * α := by
  have h0 : min ((d:ℕ) : ℝ) (d : ℝ) = (d : ℝ) := by simp
  have hd' : (d : ℝ) ≠ 0 := Nat.cast_ne_zero.mpr hd
  simp only [cosine_decay_schedule, h0, mul_div_assoc, div_self hd', mul_one,
    Real.cos_pi]
  ring

theorem warmup_cosine_decay_schedule_zero (i p : ℝ) (w d : ℕ) (e : ℝ)
    (hw : 0 < w) : warmup_cosine_decay_schedule i p w d e 0 = i := by
  simp only [warmup_cosine_decay_schedule, if_pos hw]
  exact linear_schedule_zero i p w

theorem warmup_cosine_decay_schedule_boundary (i p : ℝ) (w d : ℕ) (e : ℝ) :
    warmup_cosine_decay_schedule i p w d e w = p := by
  simp only [warmup_cosine_decay_schedule, lt_irrefl, if_neg (lt_irrefl w), Nat.sub_self]
  exact cosine_decay_schedule_zero p (d - w) (e / p)

theorem warmup_cosine_decay_schedule_final (i p : ℝ) (w d : ℕ) (e : ℝ)
    (hwd : w < d) (hp : p ≠ 0) :
    warmup_cosine_decay_schedule i p w d e d = e := by
  have hnl : ¬ d < w := not_lt_of_ge hwd.le
  have hdw : d - w ≠ 0 := Nat.sub_ne_zero_of_lt hwd
  simp only [warmup_cosine_decay_schedule, if_neg hnl]
  rw [cosine_decay_schedule_end p (d - w) (e / p) hdw]
  field_simp

/-- C2: the learning-rate schedule built by `new_train_state` follows
exactly one of four mutually exclusive branches determined by
`(do_warmup, do_decay)`: both set gives the warmup-cosine-decay schedule
from 0 to the peak over `warmup_steps` then cosine decay to the end value
(reached at step `decay_steps`); warmup only gives the linear ramp from 0
to the target over `warmup_steps`; decay only gives the cosine decay from
the target to the end value; neither gives the constant scalar rate.  In
each branch the schedule takes the documented value at step 0, at the
warmup/decay boundary, and at the final step. -/
theorem lr_schedule_four_branches (p : OptimizerParams)
    (hw : 0 < p.warmup_steps) (hwd : p.warmup_steps < p.decay_steps)
    (hlr : p.learning_rate ≠ 0) :
    (p.do_warmup = true → p.do_decay = true →
      lr_of p = .schedule (warmup_cosine_decay_schedule 0 p.learning_rate
        p.warmup_steps p.decay_steps p.end_learning_rate) ∧
      sched_at (lr_of p) 0 = 0 ∧
      sched_at (lr_of p) p.warmup_steps = p.learning_rate ∧
      sched_at (lr_of p) p.decay_steps = p.end_learning_rate) ∧
    (p.do_warmup = true → p.do_decay = false →
      lr_of p = .schedule (linear_schedule 0 p.learning_rate p.warmup_steps) ∧
      sched_at (lr_of p) 0 = 0 ∧
      sched_at (lr_of p) p.warmup_steps = p.learning_rate) ∧
    (p.do_warmup = false → p.do_decay = true →
      lr_of p = .schedule (cosine_decay_schedule p.learning_rate p.decay_steps
        (p.end_learning_rate / p.learning_rate)) ∧
      sched_at (lr_of p) 0 = p.learning_rate ∧
      sched_at (lr_of p) p.decay_steps = p.end_learning_rate) ∧
    (p.do_warmup = false → p.do_decay = false →
      lr_of p = .scalar p.learning_rate ∧
      ∀ n, sched_at (lr_of p) n = p.learning_rate) := by
  have hd : p.decay_steps ≠ 0 := (lt_of_le_of_lt (Nat.zero_le _) hwd).ne'
  refine ⟨?_, ?_, ?_, ?_⟩
  · intro h1 h2
    have hb : lr_of p = .schedule (warmup_cosine_decay_schedule 0 p.learning_rate
        p.warmup_steps p.decay_steps p.end_learning_rate) := by
      simp [lr_of, h1, h2]
    refine ⟨hb, ?_, ?_, ?_⟩
    · rw [hb]; exact warmup_cosine_decay_schedule_zero _ _ _ _ _ hw
    · rw [hb]; exact warmup_cosine_decay_schedule_boundary _ _ _ _ _
    · rw [hb]; exact warmup_cosine_decay_schedule_final _ _ _ _ _ hwd hlr
  · intro h1 h2
    have hb : lr_of p = .schedule (linear_schedule 0 p.learning_rate
        p.warmup_steps) := by
      simp [lr_of, h1, h2]
    refine ⟨hb, ?_, ?_⟩
    · rw [hb]; exact linear_schedule_zero _ _ _
    · rw [hb]; exact linear_schedule_end _ _ _ hw.ne'
  · intro h1 h2
    have hb : lr_of p = .schedule (cosine_decay_schedule p.learning_rate
        p.decay_steps (p.end_learning_rate / p.learning_rate)) := by
      simp [lr_of, h1, h2]
    refine ⟨hb, ?_, ?_⟩
    · rw [hb]; exact cosine_decay_schedule_zero _ _ _
    · rw [hb]
      show cosine_decay_schedule _ _ _ _ = _
      rw [cosine_decay_schedule_end _ _ _ hd]
      field_simp
  · intro h1 h2
    have hb : lr_of p = .scalar p.learning_rate := by
      simp [lr_of, h1, h2]
    exact ⟨hb, fun n => by rw [hb]; rfl⟩

/-- A concrete optimizer configuration exercising the warmup+decay
branch. -/
noncomputable def wParams : OptimizerParams :=
  { do_warmup := true
    do_decay := true
    learning_rate := 1
    warmup_steps := 10
    decay_steps := 20
    end_learning_rate := 1/2
    weight_decay := 0
    do_gradient_clipping := false
    gradient_clipping := 0 }

/-- Witness for C2 at a concrete configuration. -/
theorem lr_schedule_four_branches_witness :
    sched_at (lr_of wParams) 0 = 0 ∧
    sched_at (lr_of wParams) wParams.warmup_steps = wParams.learning_rate ∧
    sched_at (lr_of wParams) wParams.decay_steps = wParams.end_learning_rate := by
  have h := (lr_schedule_four_branches wParams (by norm_num [wParams])
    (by norm_num [wParams]) (by norm_num [wParams])).1 rfl rfl
  exact ⟨h.2.1, h.2.2.1, h.2.2.2⟩

/-- C10: in the decay-only branch, `new_train_state` passes the quotient
`end_learning_rate / learning_rate` as the cosine-decay floor ratio; the
division is meaningful only when `learning_rate ≠ 0`, and under that
precondition the schedule reaches exactly `end_learning_rate` at step
`decay_steps` (with a zero learning rate the schedule is identically 0
there instead). -/
theorem decay_only_division_precondition (p : OptimizerParams)
    (h1 : p.do_warmup = false) (h2 : p.do_decay = true)
    (hd : 0 < p.decay_steps) :
    lr_of p = .schedule (cosine_decay_schedule p.learning_rate p.decay_steps
      (p.end_learning_rate / p.learning_rate)) ∧
    (p.learning_rate ≠ 0 →
      sched_at (lr_of p) p.decay_steps = p.end_learning_rate) ∧
    (p.learning_rate = 0 → sched_at (lr_of p) p.decay_steps = 0) := by
  have hb : lr_of p = .schedule (cosine_decay_schedule p.learning_rate
      p.decay_steps (p.end_learning_rate / p.learning_rate)) := by
    simp [lr_of, h1, h2]
  refine ⟨hb, ?_, ?_⟩
  · intro hlr
    rw [hb]
    show cosine_decay_schedule _ _ _ _ = _
    rw [cosine_decay_schedule_end _ _ _ hd.ne']
    field_simp
  · intro hlr
    rw [hb]
    show cosine_decay_schedule _ _ _ _ = _
    rw [cosine_decay_schedule_end _ _ _ hd.ne', hlr, zero_mul]

/-- A concrete optimizer configuration exercising the decay-only
branch. -/
noncomputable def dParams : OptimizerParams :=
  { do_warmup := false
    do_decay := true
    learning_rate := 2
    warmup_steps := 0
    decay_steps := 20
    end_learning_rate := 1/2
    weight_decay := 0
    do_gradient_clipping := false
    gradient_clipping := 0 }

/-- Witness for C10 at a concrete configuration. -/
theorem decay_only_division_precondition_witness :
    sched_at (lr_of dParams) dParams.decay_steps = dParams.end_learning_rate :=
  (decay_only_division_precondition dParams rfl rfl (by norm_num [dParams])).2.1
    (by norm_num [dParams])

/-- C5: the optimizer returned by `new_train_state` is, when
`do_gradient_clipping` is set, the two-stage pipeline
`chain(clip_by_global_norm(gradient_clipping), optimizer)` — clipping
runs before the optimizer update — and, when unset, the bare optimizer,
which contains no clipping transformation anywhere. -/
theorem gradient_clipping_pipeline (c : OptimizerConfig) :
    (∀ (B : Type) (split : RngKey → RngKey × RngKey) (k : RngKey)
        (model : Model B) (batch : B),
      (new_train_state split k model batch c).tx = tx_of c) ∧
    (c.params.do_gradient_clipping = true →
      tx_of c = .chain (.clip_by_global_norm c.params.gradient_clipping)
        (base_tx c)) ∧
    (c.params.do_gradient_clipping = false →
      tx_of c = base_tx c ∧ containsClip (tx_of c) = false) := by
  refine ⟨fun B split k model batch => rfl, ?_, ?_⟩
  · intro h
    simp [tx_of, h]
  · intro h
    have hb : tx_of c = base_tx c := by simp [tx_of, h]
    refine ⟨hb, ?_⟩
    rw [hb]
    by_cases hn : c.name = "adamw" <;> simp [base_tx, hn, containsClip]

/-- A concrete configuration with gradient clipping enabled. -/
noncomputable def clipConfig : OptimizerConfig :=
  { name := "adam"
    params :=
      { do_warmup := false
        do_decay := false
        learning_rate := 1
        warmup_steps := 0
        decay_steps := 0
        end_learning_rate := 0
        weight_decay := 0
        do_gradient_clipping := true
        gradient_clipping := 5 } }

/-- A concrete configuration with gradient clipping disabled. -/
noncomputable def noclipConfig : OptimizerConfig :=
  { name := "adam"
    params :=
      { do_warmup := false
        do_decay := false
        learning_rate := 1
        warmup_steps := 0
        decay_steps := 0
        end_learning_rate := 0
        weight_decay := 0
        do_gradient_clipping := false
        gradient_clipping := 0 } }

/-- Witness for C5 at concrete configurations (clipping on and off). -/
theorem gradient_clipping_pipeline_witness :
    tx_of clipConfig = .chain
      (.clip_by_global_norm clipConfig.params.gradient_clipping)
      (base_tx clipConfig) ∧
    containsClip (tx_of noclipConfig) = false :=
  ⟨(gradient_clipping_pipeline clipConfig).2.1 rfl,
   ((gradient_clipping_pipeline noclipConfig).2.2 rfl).2⟩

/-- C6: `new_train_state` selects the optimizer by name: `"adamw"`
yields the decoupled-weight-decay optimizer with the configured
`weight_decay`; any other name yields the plain adaptive optimizer
without weight decay.  (`base_tx` is the optimizer `new_train_state`
builds before the optional clipping wrapper of C5.) -/
theorem optimizer_name_selection (c : OptimizerConfig) :
    (c.name = "adamw" →
      base_tx c = .adamw (lr_of c.params) c.params.weight_decay) ∧
    (c.name ≠ "adamw" → base_tx c = .adam (lr_of c.params)) := by
  constructor
  · intro h
    simp [base_tx, h]
  · intro h
    simp [base_tx, h]

/-- A concrete configuration naming the `"adamw"` optimizer. -/
noncomputable def adamwConfig : OptimizerConfig :=
  { name := "adamw"
    params :=
      { do_warmup := false
        do_decay := false
        learning_rate := 1
        warmup_steps := 0
        decay_steps := 0
        end_learning_rate := 0
        weight_decay := 1/100
        do_gradient_clipping := false
        gradient_clipping := 0 } }

/-- A concrete configuration naming a non-`"adamw"` optimizer. -/
noncomputable def sgdConfig : OptimizerConfig :=
  { name := "sgd"
    params :=
      { do_warmup := false
        do_decay := false
        learning_rate := 1
        warmup_steps := 0
        decay_steps := 0
        end_learning_rate := 0
        weight_decay := 0
        do_gradient_clipping := false
        gradient_clipping := 0 } }

/-- Witness for C6 at concrete configurations (both branches). -/
theorem optimizer_name_selection_witness :
    base_tx adamwConfig
      = .adamw (lr_of adamwConfig.params) adamwConfig.params.weight_decay ∧
    base_tx sgdConfig = .adam (lr_of sgdConfig.params) :=
  ⟨(optimizer_name_selection adamwConfig).1 rfl,
   (optimizer_name_selection sgdConfig).2 (by decide)⟩

/-- C7: immediately after `new_train_state` returns, `ema_params` is the
copy of `params` (so the two trees are equal, and in particular
structurally identical: same keys and same tensor shapes at every
node). -/
theorem params_ema_params_same_structure {B : Type}
    (split : RngKey → RngKey × RngKey) (k : RngKey) (model : Model B)
    (batch : B) (c : OptimizerConfig) :
    (new_train_state split k model batch c).ema_params
      = (new_train_state split k model batch c).params ∧
    sameStructure (new_train_state split k model batch c).params
      (new_train_state split k model batch c).ema_params = true :=
  ⟨rfl, sameStructure_refl _⟩

/-- C9: `new_train_state` is deterministic — its output depends on its
inputs only, and on the PRNG key only through the pair of sub-keys the
deterministic split produces: two calls whose splits agree produce
identical training states (in particular two calls with the same key
do). -/
theorem new_train_state_deterministic {B : Type}
    (split : RngKey → RngKey × RngKey) (k₁ k₂ : RngKey) (model : Model B)
    (batch : B) (c : OptimizerConfig) (h : split k₁ = split k₂) :
    new_train_state split k₁ model batch c
      = new_train_state split k₂ model batch c := by
  unfold new_train_state
  rw [h]

/-- A concrete deterministic key-split function. -/
def wSplit (n : RngKey) : RngKey × RngKey := (2 * n, 2 * n + 1)

/-- A concrete trivial model over unit batches. -/
def wModel : Model Unit :=
  { init := fun _ _ _ => ⟨.node .nil⟩
    apply := fun t _ => t }

/-- Witness for C9 at a concrete split, key, model and configuration. -/
theorem new_train_state_deterministic_witness :
    new_train_state wSplit 0 wModel () sgdConfig
      = new_train_state wSplit 0 wModel () sgdConfig :=
  new_train_state_deterministic wSplit 0 0 wModel () sgdConfig rfl

/-- C8: `get_checkpointer_fns` eagerly, at construction time (before any
of the returned closures can run), creates the output directory and
writes the binary dump of `model_config` at the fixed path
`outfolder/config.pkl`; the checkpoint manager it hands to the closures
starts with no retained checkpoints and carries the configured
`max_to_keep` and `save_interval_steps`. -/
theorem checkpointer_construction_effects {μ : Type} (S : Type) (o : String)
    (c : CheckpointerConfig) (mc : μ) (fs : FileSystem μ) :
    o ∈ (get_checkpointer_fns S o c mc fs).1.dirs ∧
    ((get_checkpointer_fns S o c mc fs).1.files.lookup (o ++ "/config.pkl"))
      = some mc ∧
    (get_checkpointer_fns S o c mc fs).2.recs = [] ∧
    (get_checkpointer_fns S o c mc fs).2.max_to_keep = c.max_to_keep ∧
    (get_checkpointer_fns S o c mc fs).2.save_interval_steps
      = c.save_interval_steps := by
  refine ⟨?_, ?_, rfl, rfl, rfl⟩
  · simp [get_checkpointer_fns, save_pickle]
  · simp [get_checkpointer_fns, save_pickle, List.lookup]

/-! ### Properties of the checkpoint manager model -/

theorem run_saves_cons {S : Type} (m : CheckpointManagerState S) (s : SaveReq S)
    (rest : List (SaveReq S)) :
    run_saves m (s :: rest) = run_saves (save_fn m s.step s.ckpt s.metrics) rest :=
  rfl

theorem best_foldl_mem {S : Type} :
    ∀ (rs : List (CheckpointRecord S)) (b : CheckpointRecord S),
      rs.foldl (fun acc x => if recLoss x < recLoss acc then x else acc) b
        ∈ b :: rs := by
  intro rs
  induction rs with
  | nil => intro b; simp
  | cons x rs ih =>
    intro b
    simp only [List.foldl_cons]
    have h := ih (if recLoss x < recLoss b then x else b)
    rw [List.mem_cons] at h
    rcases h with h | h
    · rw [h]
      by_cases hc : recLoss x < recLoss b
      · simp [hc]
      · simp [hc]
    · simp [h]

theorem best_foldl_le {S : Type} :
    ∀ (rs : List (CheckpointRecord S)) (b : CheckpointRecord S),
      recLoss (rs.foldl (fun acc x => if recLoss x < recLoss acc then x else acc) b)
          ≤ recLoss b ∧
        ∀ x ∈ rs,
          recLoss (rs.foldl (fun acc x => if recLoss x < recLoss acc then x else acc) b)
            ≤ recLoss x := by
  intro rs
  induction rs with
  | nil =>
    intro b
    exact ⟨le_refl _, by simp⟩
  | cons y rs ih =>
    intro b
    simp only [List.foldl_cons]
    have h := ih (if recLoss y < recLoss b then y else b)
    have hb : recLoss (if recLoss y < recLoss b then y else b) ≤ recLoss b := by
      by_cases hc : recLoss y < recLoss b
      · rw [if_pos hc]; exact le_of_lt hc
      · rw [if_neg hc]
    have hy : recLoss (if recLoss y < recLoss b then y else b) ≤ recLoss y := by
      by_cases hc : recLoss y < recLoss b
      · rw [if_pos hc]
      · rw [if_neg hc]; exact le_of_not_lt hc
    refine ⟨le_trans h.1 hb, ?_⟩
    intro x hx
    rw [List.mem_cons] at hx
    rcases hx with hx | hx
    · rw [hx]; exact le_trans h.1 hy
    · exact h.2 x hx

theorem best_foldl_of_min {S : Type} :
    ∀ (rs : List (CheckpointRecord S)) (b : CheckpointRecord S),
      (∀ x ∈ rs, ¬ recLoss x < recLoss b) →
      rs.foldl (fun acc x => if recLoss x < recLoss acc then x else acc) b = b := by
  intro rs
  induction rs with
  | nil => intro b _; rfl
  | cons x rs ih =>
    intro b h
    simp only [List.foldl_cons]
    rw [if_neg (h x (List.mem_cons_self x rs))]
    exact ih b (fun y hy => h y (List.mem_cons_of_mem x hy))

theorem foldl_max_lt {S : Type} (L : ℚ) :
    ∀ (rs : List (CheckpointRecord S)) (a : ℚ), a < L →
      (∀ x ∈ rs, recLoss x < L) →
      rs.foldl (fun acc x => max acc (recLoss x)) a < L := by
  intro rs
  induction rs with
  | nil =>
    intro a ha _
    simpa using ha
  | cons x rs ih =>
    intro a ha hx
    simp only [List.foldl_cons]
    apply ih
    · exact max_lt ha (hx x (List.mem_cons_self x rs))
    · intro y hy
      exact hx y (List.mem_cons_of_mem x hy)

theorem worst_val_loss_append {S : Type} (recs : List (CheckpointRecord S))
    (r : CheckpointRecord S) (h : ∀ x ∈ recs, recLoss x < recLoss r) :
    worst_val_loss (recs ++ [r]) = recLoss r := by
  cases recs with
  | nil => simp [worst_val_loss]
  | cons a as =>
    show (as ++ [r]).foldl (fun acc x => max acc (recLoss x)) (recLoss a) = recLoss r
    rw [List.foldl_append]
    show max (as.foldl (fun acc x => max acc (recLoss x)) (recLoss a)) (recLoss r)
      = recLoss r
    apply max_eq_right
    apply le_of_lt
    apply foldl_max_lt
    · exact h a (by simp)
    · intro y hy
      exact h y (by simp [hy])

theorem enforce_retention_append {S : Type} (k : ℕ)
    (recs : List (CheckpointRecord S)) (r : CheckpointRecord S)
    (hlen : recs.length ≤ k) (h : ∀ x ∈ recs, recLoss x < recLoss r) :
    enforce_retention k (recs ++ [r])
      = if recs.length < k then recs ++ [r] else recs := by
  by_cases hc : recs.length < k
  · rw [if_pos hc]
    unfold enforce_retention
    rw [if_pos (by simp; omega)]
  · rw [if_neg hc]
    have hk : recs.length = k := le_antisymm hlen (not_lt.mp hc)
    unfold enforce_retention
    rw [if_neg (by simp; omega)]
    rw [worst_val_loss_append recs r h]
    rw [List.eraseP_append_right _ ?hpre]
    case hpre =>
      intro b hb
      simp only [decide_eq_true_eq]
      exact fun heq => absurd heq (ne_of_lt (h b hb))
    simp

theorem run_saves_take {S : Type} (k : ℕ) :
    ∀ (saves : List (SaveReq S)) (R : List (CheckpointRecord S)),
      R.length ≤ k →
      (∀ r ∈ R, ∀ s ∈ saves, recLoss r < reqLoss s) →
      ((saves.map reqLoss).Pairwise (· < ·)) →
      (run_saves ⟨k, 1, R⟩ saves).recs = (R ++ saves.map toRec).take k := by
  intro saves
  induction saves with
  | nil =>
    intro R hR _ _
    simp only [run_saves, List.foldl_nil, List.map_nil, List.append_nil]
    exact (List.take_of_length_le hR).symm
  | cons s rest ih =>
    intro R hR hlt hpair
    have hstep : save_fn (⟨k, 1, R⟩ : CheckpointManagerState S) s.step s.ckpt
        s.metrics = ⟨k, 1, enforce_retention k (R ++ [toRec s])⟩ := by
      simp [save_fn, manager_save, toRec, Nat.mod_one]
    have hr : ∀ x ∈ R, recLoss x < recLoss (toRec s) := by
      intro x hx
      exact hlt x hx s (List.mem_cons_self s rest)
    have hpair' : (rest.map reqLoss).Pairwise (· < ·) := by
      rw [List.map_cons] at hpair
      exact (List.pairwise_cons.mp hpair).2
    have hhead : ∀ t ∈ rest, reqLoss s < reqLoss t := by
      intro t ht
      rw [List.map_cons] at hpair
      exact (List.pairwise_cons.mp hpair).1 (reqLoss t)
        (List.mem_map.mpr ⟨t, ht, rfl⟩)
    rw [run_saves_cons, hstep, enforce_retention_append k R (toRec s) hR hr]
    by_cases hc : R.length < k
    · rw [if_pos hc]
      have harg : ∀ x ∈ R ++ [toRec s], ∀ t ∈ rest, recLoss x < reqLoss t := by
        intro x hx t ht
        rcases List.mem_append.mp hx with hx | hx
        · exact hlt x hx t (List.mem_cons_of_mem s ht)
        · rw [List.mem_singleton.mp hx]
          exact hhead t ht
      have ih' := ih (R ++ [toRec s]) (by simp; omega) harg hpair'
      rw [ih']
      simp
    · rw [if_neg hc]
      have hkR : R.length = k := le_antisymm hR (not_lt.mp hc)
      have harg : ∀ x ∈ R, ∀ t ∈ rest, recLoss x < reqLoss t :=
        fun x hx t ht => hlt x hx t (List.mem_cons_of_mem s ht)
      have ih' := ih R hR harg hpair'
      rw [ih', ← hkR, List.take_left, List.take_left]

/-- C1: from a freshly constructed checkpointer, `save(e, S, m)` followed
by `restore()` returns exactly the state tree that was saved (so in
particular its parameters), provided the save was actually persisted
(the epoch aligns with the save interval) and the manager retains at
least one checkpoint. -/
theorem save_restore_roundtrip {S μ : Type} (o : String)
    (c : CheckpointerConfig) (mc : μ) (fs : FileSystem μ) (e : ℕ) (st : S)
    (metrics : Metrics) (hk : 0 < c.max_to_keep)
    (hpersist : e % c.save_interval_steps = 0) :
    restore_fn (save_fn (get_checkpointer_fns S o c mc fs).2 e st metrics)
      = some st := by
  have h2 : (get_checkpointer_fns S o c mc fs).2
      = (⟨c.max_to_keep, c.save_interval_steps, []⟩ : CheckpointManagerState S) :=
    rfl
  rw [h2]
  have hstep : save_fn (⟨c.max_to_keep, c.save_interval_steps, []⟩ :
        CheckpointManagerState S) e st metrics
      = ⟨c.max_to_keep, c.save_interval_steps,
          enforce_retention c.max_to_keep [⟨e, st, metrics⟩]⟩ := by
    simp [save_fn, manager_save, hpersist]
  rw [hstep]
  have henf : enforce_retention c.max_to_keep
      [(⟨e, st, metrics⟩ : CheckpointRecord S)] = [⟨e, st, metrics⟩] := by
    unfold enforce_retention
    rw [if_pos (by simpa using hk)]
  rw [henf]
  rfl

/-- Witness for C1: a save at an aligned epoch round-trips. -/
theorem save_restore_roundtrip_witness :
    restore_fn (save_fn
      (get_checkpointer_fns ℕ "out" ⟨5, 1⟩ (0 : ℕ) ⟨[], []⟩).2
      3 42 [("val_loss", 1/2)]) = some 42 :=
  save_restore_roundtrip "out" ⟨5, 1⟩ 0 ⟨[], []⟩ 3 42 [("val_loss", 1/2)]
    (by decide) (by decide)

/-- C4: `restore_fn` on a manager that has never saved anything fails
(models the raise on `restore(None)`); on any manager holding at least
one checkpoint it returns the state tree of the retained record marked
best — the one whose `val_loss` is minimal — and `best_step` names that
record's step. -/
theorem restore_loads_best_or_fails {S μ : Type} (o : String)
    (c : CheckpointerConfig) (mc : μ) (fs : FileSystem μ) :
    restore_fn ((get_checkpointer_fns S o c mc fs).2) = none ∧
    ∀ m : CheckpointManagerState S, m.recs ≠ [] →
      ∃ r, r ∈ m.recs ∧ best_step m = some r.step ∧
        restore_fn m = some r.ckpt ∧ ∀ x ∈ m.recs, recLoss r ≤ recLoss x := by
  constructor
  · rfl
  · intro m hm
    rcases hrecs : m.recs with _ | ⟨r0, rs⟩
    · exact absurd hrecs hm
    · refine ⟨rs.foldl (fun acc x => if recLoss x < recLoss acc then x else acc) r0,
        ?_, ?_, ?_, ?_⟩
      · exact best_foldl_mem rs r0
      · unfold best_step best_record
        rw [hrecs]
        rfl
      · unfold restore_fn manager_restore best_record
        rw [hrecs]
        rfl
      · intro x hx
        rcases List.mem_cons.mp hx with hx | hx
        · rw [hx]
          exact (best_foldl_le rs r0).1
        · exact (best_foldl_le rs r0).2 x hx

/-- A concrete one-checkpoint manager state. -/
def wManager : CheckpointManagerState ℕ :=
  ⟨2, 1, [⟨1, 7, [("val_loss", 1/2)]⟩]⟩

/-- Witness for C4: the fresh manager restores nothing; a manager with a
retained checkpoint restores its best record. -/
theorem restore_loads_best_or_fails_witness :
    restore_fn ((get_checkpointer_fns ℕ "out" ⟨2, 1⟩ (0 : ℕ) ⟨[], []⟩).2)
      = none ∧
    ∃ r, r ∈ wManager.recs ∧ best_step wManager = some r.step ∧
      restore_fn wManager = some r.ckpt ∧
      ∀ x ∈ wManager.recs, recLoss r ≤ recLoss x :=
  ⟨(restore_loads_best_or_fails "out" ⟨2, 1⟩ (0 : ℕ)
      (⟨[], []⟩ : FileSystem ℕ)).1,
   (restore_loads_best_or_fails "out" ⟨2, 1⟩ (0 : ℕ)
      (⟨[], []⟩ : FileSystem ℕ)).2 wManager (by simp [wManager])⟩

/-- C3: running `N` persisted saves with strictly increasing `val_loss`
against a fresh checkpointer with `max_to_keep = k` leaves exactly the
`k` saves with the smallest `val_loss` retained (the first `k`, since
losses increase), and `best_step()` resolves to the save with the
globally smallest `val_loss` among all saves so far (the very first
one). -/
theorem retention_keeps_k_smallest {S μ : Type} (o : String) (mc : μ)
    (fs : FileSystem μ) (k : ℕ) (saves : List (SaveReq S))
    (hk : 0 < k) (hne : saves ≠ [])
    (hinc : (saves.map reqLoss).Pairwise (· < ·)) :
    (run_saves (get_checkpointer_fns S o ⟨k, 1⟩ mc fs).2 saves).recs
      = (saves.take k).map toRec ∧
    best_step (run_saves (get_checkpointer_fns S o ⟨k, 1⟩ mc fs).2 saves)
      = saves.head?.map (fun s => s.step) := by
  have h2 : (get_checkpointer_fns S o ⟨k, 1⟩ mc fs).2
      = (⟨k, 1, []⟩ : CheckpointManagerState S) := rfl
  have hrecs : (run_saves (⟨k, 1, []⟩ : CheckpointManagerState S) saves).recs
      = (saves.map toRec).take k := by
    have h := run_saves_take k saves [] (Nat.zero_le k) (by simp) hinc
    simpa using h
  constructor
  · rw [h2, hrecs, List.map_take]
  · rcases saves with _ | ⟨s, rest⟩
    · exact absurd rfl hne
    · obtain ⟨k', rfl⟩ : ∃ k', k = k' + 1 := ⟨k - 1, by omega⟩
      rw [h2]
      unfold best_step
      rw [hrecs, List.map_cons, List.take_succ_cons]
      have hmin : ∀ x ∈ (rest.map toRec).take k',
          ¬ recLoss x < recLoss (toRec s) := by
        intro x hx
        rcases List.mem_map.mp (List.take_subset _ _ hx) with ⟨t, ht, rfl⟩
        have hst : reqLoss s < reqLoss t := by
          rw [List.map_cons] at hinc
          exact (List.pairwise_cons.mp hinc).1 (reqLoss t)
            (List.mem_map.mpr ⟨t, ht, rfl⟩)
        exact not_lt.mpr (le_of_lt hst)
      have hb : best_record ((toRec s) :: (rest.map toRec).take k')
          = some (toRec s) := by
        show some _ = _
        rw [best_foldl_of_min _ _ hmin]
      rw [hb]
      rfl

/-- Three concrete saves with strictly increasing validation losses. -/
def wSaves : List (SaveReq ℕ) :=
  [⟨1, 10, [("val_loss", 1)]⟩, ⟨2, 20, [("val_loss", 2)]⟩,
   ⟨3, 30, [("val_loss", 3)]⟩]

/-- Witness for C3: with `max_to_keep = 2` and three increasing-loss
saves, the first two remain and the first is best. -/
theorem retention_keeps_k_smallest_witness :
    (run_saves (get_checkpointer_fns ℕ "out" ⟨2, 1⟩ (0 : ℕ)
        (⟨[], []⟩ : FileSystem ℕ)).2 wSaves).recs
      = (wSaves.take 2).map toRec ∧
    best_step (run_saves (get_checkpointer_fns ℕ "out" ⟨2, 1⟩ (0 : ℕ)
        (⟨[], []⟩ : FileSystem ℕ)).2 wSaves)
      = wSaves.head?.map (fun s => s.step) :=
  retention_keeps_k_smallest "out" (0 : ℕ) (⟨[], []⟩ : FileSystem ℕ) 2 wSaves
    (by decide) (by simp [wSaves]) (by decide)
